import Mathlib

/-!
# Verification of the jewelry-recommender retrieval and personalization core

Shallow embedding of the repository `158-ASS2`:

* `src/filters.py`     — attribute filtering for the cartier / diamonds / settings pools
* `src/retrieval_engine.py` — `JewelryRetrievalEngine` (load + FAISS flat inner-product search)
* `src/personalized_recommender.py` — compatibility scoring, quick prefilter,
  candidate pairing, combination scoring, MMR diversity re-ranking
* `src/user_vector_manager.py` — hybrid user vectors, temporal decay, interaction log

Python floats are modelled exactly: by `ℚ` where the code only uses field
operations and comparisons (filters, retrieval scores, compatibility credits),
and by `ℝ` where the code takes square roots (`np.linalg.norm`) or real powers
(`2.0 ** x`).  Python dictionaries with a fixed key set become structures with
`Option`-valued fields (`none` = key absent / value `None`).
-/

/-! ## Metadata and filter dictionaries (`src/filters.py`)

One metadata record serves all three datasets, mirroring the untyped Python
dicts: every attribute any filter function reads is an optional field.
Item ids are the numeric pool ids stored in the metadata files; the
recommender parses them with `int(...)`, modelled as `Option Nat` directly. -/

structure Item where
  id : Option Nat := none
  price : Option ℚ := none
  carat_weight : Option ℚ := none
  band_width_mm : Option ℚ := none
  color : Option String := none
  clarity : Option String := none
  cut : Option String := none
  shape : Option String := none
  lab : Option String := none
  metal : Option String := none
  style : Option String := none
  metals : Option (List String) := none
  gemstones : Option (List String) := none
  styles : Option (List String) := none
deriving DecidableEq

/-- The settings `style` filter accepts either a list or a single string
(`filters.py` lines 190-199). -/
inductive StyleFilter where
  | ofList : List String → StyleFilter
  | single : String → StyleFilter
deriving DecidableEq

/-- One filter dictionary for all three datasets (the Python filter argument is
an untyped dict; each dataset's function reads its own keys). -/
structure Filters where
  price_min : Option ℚ := none
  price_max : Option ℚ := none
  carat_min : Option ℚ := none
  carat_max : Option ℚ := none
  band_width_min : Option ℚ := none
  band_width_max : Option ℚ := none
  metal : Option (List String) := none
  gemstones : Option (List String) := none
  styles : Option (List String) := none
  color : Option (List String) := none
  clarity : Option (List String) := none
  cut : Option (List String) := none
  shape : Option (List String) := none
  lab : Option (List String) := none
  style : Option StyleFilter := none
deriving DecidableEq

/-- Case mapping written over `String.data` so that concrete instances reduce
in the kernel (behaviour of `str.lower`). -/
def strLower (s : String) : String := ⟨s.data.map Char.toLower⟩

/-- Behaviour of `str.upper`. -/
def strUpper (s : String) : String := ⟨s.data.map Char.toUpper⟩

/-- Python `needle in hay` substring test. -/
def strContains (hay needle : String) : Bool :=
  hay.data.tails.any (fun t => needle.data.isPrefixOf t)

/-- Numeric lower-bound check guarded by `item.get(key) is not None`
(cartier price / band width, settings price / band width): with the bound set
and the value present, reject iff `value < bound`; otherwise pass. -/
def passMinIfPresent (bound v : Option ℚ) : Bool :=
  match bound, v with
  | some m, some x => decide (m ≤ x)
  | _, _ => true

/-- Numeric upper-bound check guarded by `item.get(key) is not None`. -/
def passMaxIfPresent (bound v : Option ℚ) : Bool :=
  match bound, v with
  | some m, some x => decide (x ≤ m)
  | _, _ => true

/-- Numeric lower-bound check guarded by `item.get(key, 0) > 0`
(diamond price / carat weight). -/
def passMinIfPos (bound v : Option ℚ) : Bool :=
  match bound with
  | some m => if 0 < v.getD 0 then decide (m ≤ v.getD 0) else true
  | none => true

/-- Numeric upper-bound check guarded by `item.get(key, 0) > 0`. -/
def passMaxIfPos (bound v : Option ℚ) : Bool :=
  match bound with
  | some m => if 0 < v.getD 0 then decide (v.getD 0 ≤ m) else true
  | none => true

/-- List-valued categorical check (cartier metal / gemstones / style lists):
active only when the filter key is present and its list non-empty (Python
truthiness); passes iff some requested value occurs in the item's list, whose
default on a missing field is `[]`. -/
def anyMemFilter (fl : Option (List String)) (il : List String) : Bool :=
  match fl with
  | some (f :: fs) => (f :: fs).any (fun m => il.contains m)
  | _ => true

/-- Coded-grade categorical check (diamond color / clarity / cut / shape /
lab): exact membership of `item.get(key, 'Unknown')` in the requested list. -/
def codedFilter (fl : Option (List String)) (v : Option String) : Bool :=
  match fl with
  | some (f :: fs) => (f :: fs).contains (v.getD "Unknown")
  | _ => true

/-- Settings metal check: case-insensitive substring of the item's metal
string, whose default on a missing field is the empty string. -/
def settingsMetalFilter (fl : Option (List String)) (v : Option String) : Bool :=
  match fl with
  | some (f :: fs) => (f :: fs).any (fun m => strContains (strLower (v.getD "")) (strLower m))
  | _ => true

/-- Settings style check: list membership or exact string equality against
`item.get('style', '')`; a `None`, empty-list or empty-string filter value is
falsy and skips the check. -/
def styleFilterPass (fl : Option StyleFilter) (v : Option String) : Bool :=
  match fl with
  | some (.ofList (f :: fs)) => (f :: fs).contains (v.getD "")
  | some (.single s) => if s = "" then true else decide (v.getD "" = s)
  | _ => true

/-- Per-item predicate of `filter_cartier_by_attributes`: the conjunction of
the function's `continue` guards (lines 32-69 of `filters.py`). -/
def cartierPass (f : Filters) (it : Item) : Bool :=
  passMinIfPresent f.price_min it.price && passMaxIfPresent f.price_max it.price &&
  anyMemFilter f.metal (it.metals.getD []) &&
  anyMemFilter f.gemstones (it.gemstones.getD []) &&
  anyMemFilter f.styles (it.styles.getD []) &&
  passMinIfPresent f.band_width_min it.band_width_mm &&
  passMaxIfPresent f.band_width_max it.band_width_mm

/-- `filter_cartier_by_attributes`: indices of the items passing every check. -/
def filter_cartier_by_attributes (metadata : List Item) (f : Filters) : List Nat :=
  (metadata.enum.filter (fun p => cartierPass f p.2)).map (fun p => p.1)

/-- Per-item predicate of `filter_diamonds_by_attributes`
(lines 99-143 of `filters.py`). -/
def diamondPass (f : Filters) (it : Item) : Bool :=
  passMinIfPos f.price_min it.price && passMaxIfPos f.price_max it.price &&
  passMinIfPos f.carat_min it.carat_weight && passMaxIfPos f.carat_max it.carat_weight &&
  codedFilter f.color it.color && codedFilter f.clarity it.clarity &&
  codedFilter f.cut it.cut && codedFilter f.shape it.shape &&
  codedFilter f.lab it.lab

/-- `filter_diamonds_by_attributes`. -/
def filter_diamonds_by_attributes (metadata : List Item) (f : Filters) : List Nat :=
  (metadata.enum.filter (fun p => diamondPass f p.2)).map (fun p => p.1)

/-- Per-item predicate of `filter_settings_by_attributes`
(lines 171-216 of `filters.py`). -/
def settingsPass (f : Filters) (it : Item) : Bool :=
  passMinIfPresent f.price_min it.price && passMaxIfPresent f.price_max it.price &&
  settingsMetalFilter f.metal it.metal &&
  styleFilterPass f.style it.style &&
  passMinIfPresent f.band_width_min it.band_width_mm &&
  passMaxIfPresent f.band_width_max it.band_width_mm &&
  anyMemFilter f.gemstones (it.gemstones.getD [])

/-- `filter_settings_by_attributes`. -/
def filter_settings_by_attributes (metadata : List Item) (f : Filters) : List Nat :=
  (metadata.enum.filter (fun p => settingsPass f p.2)).map (fun p => p.1)

/-! ## Retrieval engine (`src/retrieval_engine.py`) -/

/-- The three dataset types the engine dispatches on (an unknown string raises
at the filter dispatch; the meaningful domain is these three). -/
inductive DatasetType where
  | cartier
  | diamonds
  | settings
deriving DecidableEq

/-- `JewelryRetrievalEngine` state after `__init__`: the embedding matrix, the
metadata list and the dataset tag.  The FAISS index stores exactly
`self.embeddings`, so it is not separate state. -/
structure JewelryRetrievalEngine where
  dataset_type : DatasetType
  embeddings : List (List ℚ)
  metadata : List Item
deriving DecidableEq

/-- `JewelryRetrievalEngine.__init__` with a flat/ivf/hnsw index: loads both
files and builds the index.  There is no consistency check between
`embeddings` and `metadata`; the only failure is an unknown index type
(`_build_index` raises `ValueError`). -/
def initEngine (emb : List (List ℚ)) (meta : List Item) (dt : DatasetType)
    (index_type : String) : Except String JewelryRetrievalEngine :=
  if index_type = "flat" ∨ index_type = "ivf" ∨ index_type = "hnsw" then
    .ok ⟨dt, emb, meta⟩
  else
    .error "Unknown index type"

/-- Inner product of a stored vector with the query (`IndexFlatIP` metric). -/
def dotQ (v w : List ℚ) : ℚ := (List.zipWith (· * ·) v w).sum

/-- Sort order of FAISS exact-search hits over `(insertion position, score)`
pairs: descending score, ties broken by insertion position. -/
def hitRel (a b : Nat × ℚ) : Prop := b.2 < a.2 ∨ (a.2 = b.2 ∧ a.1 ≤ b.1)

instance : DecidableRel hitRel := fun a b => by unfold hitRel; infer_instance

instance : IsTotal (Nat × ℚ) hitRel where
  total a b := by
    rcases lt_trichotomy a.2 b.2 with h | h | h
    · exact Or.inr (Or.inl h)
    · rcases Nat.le_total a.1 b.1 with h' | h'
      · exact Or.inl (Or.inr ⟨h, h'⟩)
      · exact Or.inr (Or.inr ⟨h.symm, h'⟩)
    · exact Or.inl (Or.inl h)

instance : IsTrans (Nat × ℚ) hitRel where
  trans a b c hab hbc := by
    rcases hab with h1 | ⟨e1, l1⟩ <;> rcases hbc with h2 | ⟨e2, l2⟩
    · exact Or.inl (h2.trans h1)
    · exact Or.inl (e2 ▸ h1)
    · exact Or.inl (e1 ▸ h2)
    · exact Or.inr ⟨e1.trans e2, l1.trans l2⟩

/-- Modelled from the spec: the FAISS `IndexFlatIP` search code is not part of
this repository.  Per the spec it performs exact inner-product search and
"returns ≤ min(k, eligible_count) results ordered by descending score; ties
broken by original pool order (stable)": every stored vector is scored against
the query and the `k` best `(position, score)` pairs are returned in
descending-score order, ties by insertion position. -/
def faissFlatSearch (stored : List (List ℚ)) (q : List ℚ) (k : Nat) : List (Nat × ℚ) :=
  (List.insertionSort hitRel ((stored.map (fun v => dotQ v q)).enum)).take k

/-- A result dict `{'id': ..., 'score': ..., 'metadata': ...}`; `idx` is the
original pool index the hit was mapped back to. -/
structure SearchResult where
  idx : Nat
  id : Nat
  score : ℚ
  meta : Item
deriving DecidableEq

/-- Result formatting (`retrieval_engine.py` lines 152-163): a hit is kept only
when `idx < len(self.metadata)`, and carries `metadata[idx].get('id', str(idx))`
and the metadata record. -/
def formatResults (metadata : List Item) (hits : List (Nat × ℚ)) : List SearchResult :=
  hits.filterMap (fun h => (metadata.get? h.1).map
    (fun m => ⟨h.1, m.id.getD h.1, h.2, m⟩))

/-- Dispatch of `search` on `self.dataset_type` (lines 113-121). -/
def eligibleIndices (dt : DatasetType) (metadata : List Item) (f : Filters) : List Nat :=
  match dt with
  | .cartier => filter_cartier_by_attributes metadata f
  | .diamonds => filter_diamonds_by_attributes metadata f
  | .settings => filter_settings_by_attributes metadata f

/-- `JewelryRetrievalEngine.search` (lines 94-163).  With filters the eligible
indices are resolved first; an empty candidate set short-circuits to `[]`;
otherwise a temporary flat index over the candidate embeddings is searched with
`k = min(top_k, len(candidates))` and hit positions are mapped back through
`candidate_indices`.  Without filters the main index is searched with
`k = min(top_k, ntotal)`. -/
def JewelryRetrievalEngine.search (eng : JewelryRetrievalEngine) (q : List ℚ)
    (top_k : Nat) (filters : Option Filters) : List SearchResult :=
  match filters with
  | some f =>
    let cand := eligibleIndices eng.dataset_type eng.metadata f
    if cand.isEmpty then []
    else
      let candEmb := cand.map (fun i => (eng.embeddings.get? i).getD [])
      let hits := faissFlatSearch candEmb q (min top_k cand.length)
      formatResults eng.metadata (hits.map (fun h => (cand.getD h.1 0, h.2)))
  | none =>
    formatResults eng.metadata (faissFlatSearch eng.embeddings q (min top_k eng.embeddings.length))

/-- Eligible pool size of a search call: the filtered index count when filters
are given, the full pool size otherwise. -/
def eligibleCount (eng : JewelryRetrievalEngine) (filters : Option Filters) : Nat :=
  match filters with
  | some f => (eligibleIndices eng.dataset_type eng.metadata f).length
  | none => eng.metadata.length

/-! ## Real-vector toolkit (`np` operations used by the recommender and the
user-vector manager).  Vectors are `List ℝ`; all stored/query embeddings share
one dimension in practice, so elementwise `zipWith` matches broadcasting. -/

/-- Embedding vectors. -/
abbrev Vec := List ℝ

/-- `np.dot` of two vectors. -/
noncomputable def dotR (v w : Vec) : ℝ := (List.zipWith (· * ·) v w).sum

/-- Elementwise vector sum. -/
noncomputable def vadd (v w : Vec) : Vec := List.zipWith (· + ·) v w

/-- Scalar multiple. -/
noncomputable def smul (c : ℝ) (v : Vec) : Vec := v.map (fun x => c * x)

/-- `np.linalg.norm`. -/
noncomputable def l2norm (v : Vec) : ℝ := Real.sqrt ((v.map (fun x => x ^ 2)).sum)

/-- The pervasive `norm = np.linalg.norm(v); if norm > 0: v = v / norm`
idiom. -/
noncomputable def normalizePos (v : Vec) : Vec :=
  if 0 < l2norm v then v.map (fun x => x / l2norm v) else v

/-- `(a + b) / 2.0` averaging of two embeddings. -/
noncomputable def vavg (v w : Vec) : Vec := (vadd v w).map (fun x => x / 2)

/-- Sum of a list of vectors (`np.sum(..., axis=0)` base case of mean). -/
noncomputable def vsum : List Vec → Vec
  | [] => []
  | v :: vs => vs.foldl vadd v

/-- `np.mean(embeddings, axis=0)`. -/
noncomputable def vmean (l : List Vec) : Vec := (vsum l).map (fun x => x / l.length)

/-- `np.average(embeddings, axis=0, weights=ws)` = Σ wᵢ·eᵢ / Σ wᵢ. -/
noncomputable def weightedAverage (embs : List Vec) (ws : List ℝ) : Vec :=
  (vsum (List.zipWith smul ws embs)).map (fun x => x / ws.sum)

/-! ## Personalized recommender (`src/personalized_recommender.py`)

Search results are consumed as dicts `{'score', 'metadata'}`; scores are real
similarities. -/

/-- A candidate as seen by the recommender. -/
structure RResult where
  score : ℝ
  meta : Item

/-- Extracted key attributes (the `'metal'/'color'/'shape'` slots of
`_extract_key_attributes`; each is `None` or a non-empty singleton list in the
source, but any list value flows through the same code). -/
structure KeyAttrs where
  metal : Option (List String) := none
  color : Option (List String) := none
  shape : Option (List String) := none

/-- Python truthiness of a `'key': list-or-None` slot. -/
def optListTruthy : Option (List String) → Bool
  | some (_ :: _) => true
  | _ => false

/-- `any(key_attributes.values())`. -/
def kaAny (ka : KeyAttrs) : Bool :=
  optListTruthy ka.metal || optListTruthy ka.color || optListTruthy ka.shape

/-- Metal-color affinity credit of `_compute_diamond_setting_compatibility`
(lines 263-280): premium D/E/F colors credit 0.3 with platinum/white gold,
G/H/I credit 0.2 with any metal, J/K/L credit 0.25 with warm metals. -/
def metalColorCredit (dmeta smeta : Item) : ℚ :=
  let dc := strUpper (dmeta.color.getD "")
  let sm := strLower (smeta.metal.getD "")
  if dc = "D" ∨ dc = "E" ∨ dc = "F" then
    if strContains sm "platinum" ∨ strContains sm "white gold" then 3/10 else 0
  else if dc = "G" ∨ dc = "H" ∨ dc = "I" then 1/5
  else if dc = "J" ∨ dc = "K" ∨ dc = "L" then
    if strContains sm "yellow gold" ∨ strContains sm "pink gold" ∨
        strContains sm "rose gold" then 1/4 else 0
  else 0

/-- Style credit (lines 282-294): round/brilliant cuts credit 0.2 with any
style; princess/cushion/emerald credit 0.25 with vintage/classic styles. -/
def styleCredit (dmeta smeta : Item) : ℚ :=
  let dcut := strLower (dmeta.cut.getD "")
  let sstyle := strLower (smeta.style.getD "")
  if strContains dcut "round" ∨ strContains dcut "brilliant" then 1/5
  else if strContains dcut "princess" ∨ strContains dcut "cushion" ∨
      strContains dcut "emerald" then
    if strContains sstyle "vintage" ∨ strContains sstyle "classic" then 1/4 else 0
  else 0

/-- Price-ratio credit (lines 296-310): with both prices positive, the setting
share of the total earns 0.2 in [0.2, 0.4] and 0.1 in [0.15, 0.5]. -/
def priceCredit (dmeta smeta : Item) : ℚ :=
  let dp := dmeta.price.getD 0
  let sp := smeta.price.getD 0
  if 0 < dp ∧ 0 < sp then
    let total := dp + sp
    let ratio := if 0 < total then sp / total else 0
    if 1/5 ≤ ratio ∧ ratio ≤ 2/5 then 1/5
    else if 3/20 ≤ ratio ∧ ratio ≤ 1/2 then 1/10
    else 0
  else 0

/-- Carat/band-width credit (lines 312-323): carats above 2.0 credit 0.1 for a
truthy band width ≥ 2.0mm; carats below 0.5 credit 0.1 for a falsy band width
or one ≤ 3.0mm. -/
def caratCredit (dmeta smeta : Item) : ℚ :=
  let carat := dmeta.carat_weight.getD 0
  let bwTruthy : Bool := match smeta.band_width_mm with
    | some b => decide (b ≠ 0)
    | none => false
  if 2 < carat then
    if bwTruthy ∧ 2 ≤ smeta.band_width_mm.getD 0 then 1/10 else 0
  else if carat < 1/2 then
    if ¬(bwTruthy = true) ∨ smeta.band_width_mm.getD 0 ≤ 3 then 1/10 else 0
  else 0

/-- `_compute_diamond_setting_compatibility(diamond, setting)`: the additive
rule credits, clipped to 1.0.  The arguments are result dicts; the metadata
records are read from them. -/
def compute_diamond_setting_compatibility (diamond setting : RResult) : ℚ :=
  min 1 (metalColorCredit diamond.meta setting.meta + styleCredit diamond.meta setting.meta +
    priceCredit diamond.meta setting.meta + caratCredit diamond.meta setting.meta)

/-- `_quick_compatibility_check(diamond, setting)` (lines 460-508): rejects a
setting price share outside [0.1, 0.6] (both prices positive) and a positive
band width below 1.5mm for carats above 3.0; the premium-metal block at lines
481-485 deliberately filters nothing. -/
def quick_compatibility_check (diamond setting : RResult) : Bool :=
  let dp := diamond.meta.price.getD 0
  let sp := setting.meta.price.getD 0
  let priceOk : Bool :=
    if 0 < dp ∧ 0 < sp then
      let ratio := if 0 < dp + sp then sp / (dp + sp) else 0
      decide (1/10 ≤ ratio ∧ ratio ≤ 3/5)
    else true
  let carat := diamond.meta.carat_weight.getD 0
  let bw := setting.meta.band_width_mm.getD 0
  let caratOk : Bool :=
    if 3 < carat then decide (¬(0 < bw ∧ bw < 3/2)) else true
  priceOk && caratOk

/-- `_boost_attribute_matches(diamond, setting, key_attributes)`
(lines 328-373): 0.4 for a metal match (substring either way, lowercase), 0.3
for an exact color match (uppercase), 0.3 for a shape match (substring either
way, lowercase), capped at 1.0. -/
def boost_attribute_matches (diamond setting : RResult) (ka : KeyAttrs) : ℚ :=
  let sm := strLower (setting.meta.metal.getD "")
  let dc := strUpper (diamond.meta.color.getD "")
  let dsh := strLower (diamond.meta.shape.getD "")
  let metalBoost : ℚ :=
    if optListTruthy ka.metal ∧ (ka.metal.getD []).any
        (fun m => strContains sm (strLower m) || strContains (strLower m) sm) then 2/5 else 0
  let colorBoost : ℚ :=
    if optListTruthy ka.color ∧ (ka.color.getD []).any
        (fun c => strUpper c = dc) then 3/10 else 0
  let shapeBoost : ℚ :=
    if optListTruthy ka.shape ∧ (ka.shape.getD []).any
        (fun s => strContains dsh (strLower s) || strContains (strLower s) dsh) then 3/10 else 0
  min 1 (metalBoost + colorBoost + shapeBoost)

/-- User-alignment term of `_score_combination` (lines 419-434): with a user
vector and both metadata ids present, the item embeddings are fetched by id
from the two engine matrices, averaged, normalized, and dotted with the user
vector; a failed lookup falls back to the average query similarity; missing
ids leave the term at 0. -/
noncomputable def userAlignment (dEmb sEmb : List Vec) (uv : Vec)
    (diamond setting : RResult) : ℝ :=
  match diamond.meta.id, setting.meta.id with
  | some di, some si =>
    match dEmb.get? di, sEmb.get? si with
    | some de, some se => dotR uv (normalizePos (vavg de se))
    | _, _ => (diamond.score + setting.score) / 2
  | _, _ => 0

/-- `_score_combination` (lines 375-458): hierarchical weighted sum of the
average query similarity of the pair, the attribute boost, the rule
compatibility and the user alignment; weights 0.5/0.3/0.1/0.1 for image
queries and 0.3/0.4/0.2/0.1 for text-only queries.  The `key_attributes`
dict passed by `recommend_combinations` always has its three slots, hence is
truthy and the boost is always computed. -/
noncomputable def score_combination (dEmb sEmb : List Vec) (diamond setting : RResult)
    (user_vector : Option Vec) (ka : KeyAttrs) (has_image_query : Bool) : ℝ :=
  let imageSimilarity := (diamond.score + setting.score) / 2
  let attributeBoost : ℚ := boost_attribute_matches diamond setting ka
  let compatibility : ℚ := compute_diamond_setting_compatibility diamond setting
  let ua : ℝ := match user_vector with
    | some uv => userAlignment dEmb sEmb uv diamond setting
    | none => 0
  if has_image_query then
    (1/2) * imageSimilarity + (3/10) * (attributeBoost : ℝ) +
      (1/10) * (compatibility : ℝ) + (1/10) * ua
  else
    (3/10) * imageSimilarity + (2/5) * (attributeBoost : ℝ) +
      (1/5) * (compatibility : ℝ) + (1/10) * ua

/-- The `f"{diamond_id}_{setting_id}"` combo key: the pair of raw metadata
ids. -/
def comboKey (diamond setting : RResult) : Option Nat × Option Nat :=
  (diamond.meta.id, setting.meta.id)

/-- The `score_breakdown` dict attached to each returned combination
(lines 708-716). -/
structure ScoreBreakdown where
  query_diamond_sim : ℝ
  query_setting_sim : ℝ
  compatibility : ℚ
  attribute_boost : ℚ
  user_alignment : ℝ
  collaborative_boost : ℝ
  sequential_boost : ℝ

/-- A returned combination dict (lines 703-717). -/
structure Combination where
  diamond : RResult
  setting : RResult
  combination_score : ℝ
  total_price : ℚ
  score_breakdown : ScoreBreakdown

/-- Construction of one combination entry (lines 678-717): the hierarchical
score plus a 20% collaborative and a 15% sequential boost when the combo key
is present in the respective dict; the breakdown hard-codes
`'user_alignment': 0.0`. -/
noncomputable def mkCombination (dEmb sEmb : List Vec) (user_vector : Option Vec)
    (ka : KeyAttrs) (collab seq : Option Nat × Option Nat → Option ℝ)
    (has_image_query : Bool) (p : RResult × RResult) : Combination :=
  let diamond := p.1
  let setting := p.2
  let base := score_combination dEmb sEmb diamond setting user_vector ka has_image_query
  let key := comboKey diamond setting
  let withCollab := match collab key with
    | some b => base + b * (1/5)
    | none => base
  let score := match seq key with
    | some b => withCollab + b * (3/20)
    | none => withCollab
  { diamond := diamond
    setting := setting
    combination_score := score
    total_price := diamond.meta.price.getD 0 + setting.meta.price.getD 0
    score_breakdown :=
      { query_diamond_sim := diamond.score
        query_setting_sim := setting.score
        compatibility := compute_diamond_setting_compatibility diamond setting
        attribute_boost := boost_attribute_matches diamond setting ka
        user_alignment := 0
        collaborative_boost := (collab key).getD 0
        sequential_boost := (seq key).getD 0 } }

/-- The per-pair attribute match of step 4 of `recommend_combinations`
(lines 616-648): metal and color mismatches disqualify a pair only when the
attribute was explicit in the query text. -/
def pairMatches (ka : KeyAttrs) (explicitMetal explicitColor : Bool)
    (diamond setting : RResult) : Bool :=
  let metalOk : Bool :=
    if optListTruthy ka.metal then
      let sm := strLower (setting.meta.metal.getD "")
      let mm := (ka.metal.getD []).any
        (fun m => strContains sm (strLower m) || strContains (strLower m) sm)
      !(explicitMetal && !mm)
    else true
  let colorOk : Bool :=
    if optListTruthy ka.color then
      let dc := strUpper (diamond.meta.color.getD "")
      let cm := (ka.color.getD []).any (fun c => strUpper c = dc)
      !(explicitColor && !cm)
    else true
  metalOk && colorOk

/-- Candidate pairing (lines 612-654): with any key attribute set, the
attribute-filtered pairs; when that set is empty (or no attribute is set), the
full cross product of candidates. -/
def candidatePairs (cd cs : List RResult) (ka : KeyAttrs)
    (explicitMetal explicitColor : Bool) : List (RResult × RResult) :=
  let af := if kaAny ka then
      cd.flatMap (fun d => (cs.filter (fun s => pairMatches ka explicitMetal explicitColor d s)).map
        (fun s => (d, s)))
    else []
  if af.isEmpty then cd.flatMap (fun d => cs.map (fun s => (d, s))) else af

/-- Quick-prefilter stage (lines 656-664): keep the pairs passing
`_quick_compatibility_check`, but fall back to all candidate pairs when fewer
than `top_k` survive. -/
def selectValidPairs (pairs : List (RResult × RResult)) (top_k : Nat) :
    List (RResult × RResult) :=
  let valid := pairs.filter (fun p => quick_compatibility_check p.1 p.2)
  if valid.length < top_k then pairs else valid

/-- The normalized average pair embedding used by the diversity penalty
(lines 896-911): both ids must be present and in range, otherwise the penalty
for this combination is skipped. -/
noncomputable def comboEmbedding (dEmb sEmb : List Vec) (c : Combination) : Option Vec :=
  match c.diamond.meta.id, c.setting.meta.id with
  | some di, some si =>
    match dEmb.get? di, sEmb.get? si with
    | some de, some se => some (normalizePos (vavg de se))
    | _, _ => none
  | _, _ => none

/-- `max_similarity` of a candidate to the already-selected combinations
(lines 892-930): 0 when the candidate's embedding is unavailable; otherwise
the running maximum (from 0.0) of inner products with each selected
combination's embedding, skipping unavailable ones. -/
noncomputable def maxSimilarity (dEmb sEmb : List Vec) (c : Combination)
    (selected : List Combination) : ℝ :=
  match comboEmbedding dEmb sEmb c with
  | none => 0
  | some ce => selected.foldl
      (fun m s => match comboEmbedding dEmb sEmb s with
        | none => m
        | some se => max m (dotR ce se)) 0

/-- The MMR objective (line 933): relevance minus the weighted maximal
similarity to the selected set. -/
noncomputable def mmrScore (dEmb sEmb : List Vec) (dw : ℝ)
    (selected : List Combination) (c : Combination) : ℝ :=
  c.combination_score - dw * maxSimilarity dEmb sEmb c selected

/-- Index scan of lines 884-937: `best_idx` starts at 0 with `best_score`
at -inf (`none`), and moves only on a strict improvement. -/
noncomputable def bestIdxAux (f : Combination → ℝ) :
    List Combination → Nat → Nat × Option ℝ → Nat
  | [], _, acc => acc.1
  | c :: cs, i, acc =>
    match acc.2 with
    | none => bestIdxAux f cs (i + 1) (i, some (f c))
    | some b =>
      if f c > b then bestIdxAux f cs (i + 1) (i, some (f c))
      else bestIdxAux f cs (i + 1) acc

/-- First index attaining the maximal MMR score. -/
noncomputable def bestIdx (f : Combination → ℝ) (l : List Combination) : Nat :=
  bestIdxAux f l 0 (0, none)

/-- The `while len(selected) < top_k and remaining` loop (lines 883-940):
each round pops the best-index element of `remaining` into `selected`.  The
fuel is the number of selections still to make. -/
noncomputable def mmrLoop (dEmb sEmb : List Vec) (dw : ℝ) :
    Nat → List Combination → List Combination → List Combination
  | 0, selected, _ => selected
  | n + 1, selected, remaining =>
    match remaining with
    | [] => selected
    | r :: rs =>
      let b := bestIdx (mmrScore dEmb sEmb dw selected) (r :: rs)
      let chosen := (r :: rs).getD b r
      mmrLoop dEmb sEmb dw n (selected ++ [chosen]) ((r :: rs).eraseIdx b)

/-- `_apply_diversity_penalty(combinations, top_k)` (lines 854-942): lists of
at most `top_k` combinations are returned unchanged; otherwise the *first
element of the list as passed in* is selected (`remaining.pop(0)`) and the
loop greedily adds the best remaining MMR candidate until `top_k` are
selected. -/
noncomputable def apply_diversity_penalty (dEmb sEmb : List Vec) (dw : ℝ)
    (combinations : List Combination) (top_k : Nat) : List Combination :=
  if combinations.length ≤ top_k then combinations
  else
    match combinations with
    | [] => []
    | c :: rest => mmrLoop dEmb sEmb dw (top_k - 1) [c] rest

/-- Final sort order (line 724): descending `combination_score`. -/
def combRel (a b : Combination) : Prop := b.combination_score ≤ a.combination_score

noncomputable instance : DecidableRel combRel := fun a b =>
  inferInstanceAs (Decidable (b.combination_score ≤ a.combination_score))

instance : IsTotal Combination combRel where
  total a b := le_total b.combination_score a.combination_score

instance : IsTrans Combination combRel where
  trans _ _ _ hab hbc := le_trans hbc hab

/-- `recommend_combinations` from candidate retrieval onward
(lines 599-725).  The two `search` calls and the lexicon-based hint
extraction feed this stage; the candidate result lists, the extracted
`key_attributes` with their explicitness flags, the user vector and the two
boost dicts are taken as inputs, and steps 4-10 (attribute pairing, quick
prefilter with fallback, scoring, diversity re-ranking, final sort and
truncation) are modelled as written. -/
noncomputable def recommend_combinations (dEmb sEmb : List Vec)
    (candidate_diamonds candidate_settings : List RResult)
    (user_vector : Option Vec) (ka : KeyAttrs) (explicitMetal explicitColor : Bool)
    (collab seq : Option Nat × Option Nat → Option ℝ)
    (diversity_weight : ℝ) (top_k : Nat) (has_image_query : Bool) : List Combination :=
  if candidate_diamonds.isEmpty ∨ candidate_settings.isEmpty then []
  else
    let pairs := candidatePairs candidate_diamonds candidate_settings ka explicitMetal explicitColor
    let valid := selectValidPairs pairs top_k
    let combos := valid.map (mkCombination dEmb sEmb user_vector ka collab seq has_image_query)
    let diversified :=
      if 0 < diversity_weight then apply_diversity_penalty dEmb sEmb diversity_weight combos top_k
      else combos
    (List.insertionSort combRel diversified).take top_k

/-! ## User vector manager (`src/user_vector_manager.py`)

Timestamps and weights are reals (Unix seconds); `now` stands for
`time.time()` at the call. -/

/-- An interaction dict as passed to `update_from_interactions`: every field is
read with `.get`, so every field is optional. -/
structure Interaction where
  type : Option String := none
  item_embedding : Option Vec := none
  weight : Option ℝ := none
  timestamp : Option ℝ := none

/-- The per-user document (`_ensure_user`, lines 91-100). -/
structure UserInfo where
  preferences : Option Vec := none
  preferences_text : Option String := none
  interactions : List Interaction := []
  interaction_embeddings : List Vec := []
  interaction_timestamps : List ℝ := []

/-- The fresh document created by `_ensure_user`. -/
def emptyUserInfo : UserInfo := {}

/-- `_compute_temporal_decay_weight(timestamp, current_time)` (lines 160-179):
non-positive ages return 1.0; otherwise `2 ** (-days/half_life)` clamped to
[0, 1]. -/
noncomputable def compute_temporal_decay_weight (timestamp current_time half_life : ℝ) : ℝ :=
  let days_since := (current_time - timestamp) / (24 * 3600)
  if days_since ≤ 0 then 1
  else max 0 (min 1 ((2 : ℝ) ^ (-days_since / half_life)))

/-- The combined weight an interaction embedding is scaled by (line 223):
its base weight times the temporal decay weight. -/
noncomputable def finalWeight (base_weight timestamp current_time half_life : ℝ) : ℝ :=
  base_weight * compute_temporal_decay_weight timestamp current_time half_life

/-- Processing of one interaction inside `update_from_interactions`
(lines 206-228): skipped entirely when `item_embedding` is `None`; otherwise
the embedding is normalized and scaled by `weight (default 1.0)` times the
decay weight of `timestamp (default now)`. -/
noncomputable def processInteraction (now half_life : ℝ) (i : Interaction) : Option Vec :=
  i.item_embedding.map (fun e =>
    smul (finalWeight (i.weight.getD 1) (i.timestamp.getD now) now half_life) (normalizePos e))

/-- The timestamp recorded for one interaction (appended exactly when an
embedding is appended). -/
def processTimestamp (now : ℝ) (i : Interaction) : Option ℝ :=
  match i.item_embedding with
  | some _ => some (i.timestamp.getD now)
  | none => none

/-- `update_from_interactions(user_id, interactions)` on the user's document
(lines 181-242): the raw interactions are appended to `interactions`, the
processed embeddings/timestamps to their lists, and *only if* the embeddings
list then exceeds 100 entries are all three lists cut to their last 100. -/
noncomputable def update_from_interactions (info : UserInfo) (now half_life : ℝ)
    (batch : List Interaction) : UserInfo :=
  let ints := info.interactions ++ batch
  let embs := info.interaction_embeddings ++ batch.filterMap (processInteraction now half_life)
  let ts := info.interaction_timestamps ++ batch.filterMap (processTimestamp now)
  if 100 < embs.length then
    { info with
      interactions := ints.drop (ints.length - 100)
      interaction_embeddings := embs.drop (embs.length - 100)
      interaction_timestamps := ts.drop (ts.length - 100) }
  else
    { info with
      interactions := ints
      interaction_embeddings := embs
      interaction_timestamps := ts }

/-- The interaction vector of `get_combined_vector` before its normalization
(lines 266-285): the decay-weighted average when timestamps are available and
aligned (weights renormalized to sum 1 when their sum is positive), the plain
mean otherwise. -/
noncomputable def interactionVecRaw (embs : List Vec) (ts : List ℝ) (now half_life : ℝ) : Vec :=
  if ts ≠ [] ∧ ts.length = embs.length then
    let ws := ts.map (fun t => compute_temporal_decay_weight t now half_life)
    let ws' := if 0 < ws.sum then ws.map (fun w => w / ws.sum) else ws
    weightedAverage embs ws'
  else vmean embs

/-- The normalized interaction vector (lines 287-290). -/
noncomputable def interactionVec (embs : List Vec) (ts : List ℝ) (now half_life : ℝ) : Vec :=
  normalizePos (interactionVecRaw embs ts now half_life)

/-- `get_combined_vector(user_id)` (lines 244-312): `None` for an unknown
user; the base vector is the stored preference list if truthy, the interaction
vector is the normalized decayed average if any interaction embeddings are
stored; both present → normalized `base_weight·base + interaction_weight·inter`,
one present → that vector normalized, neither → `None`. -/
noncomputable def get_combined_vector (user_data : String → Option UserInfo) (user_id : String)
    (base_weight interaction_weight half_life now : ℝ) : Option Vec :=
  match user_data user_id with
  | none => none
  | some info =>
    let base : Option Vec := match info.preferences with
      | some (x :: xs) => some (x :: xs)
      | _ => none
    let inter : Option Vec := match info.interaction_embeddings with
      | [] => none
      | e :: es => some (interactionVec (e :: es) info.interaction_timestamps now half_life)
    match base, inter with
    | some b, some iv =>
      some (normalizePos (vadd (smul base_weight b) (smul interaction_weight iv)))
    | some b, none => some (normalizePos b)
    | none, some iv => some (normalizePos iv)
    | none, none => none

/-- `get_user_vector` is an alias for `get_combined_vector` (lines 314-324). -/
noncomputable def get_user_vector (user_data : String → Option UserInfo) (user_id : String)
    (base_weight interaction_weight half_life now : ℝ) : Option Vec :=
  get_combined_vector user_data user_id base_weight interaction_weight half_life now

/-- Truthiness of the stored state `get_combined_vector` draws on: a truthy
preference list or a non-empty interaction-embedding list (an unknown user has
neither). -/
def hasVectorSource : Option UserInfo → Bool
  | none => false
  | some info =>
    (match info.preferences with
      | some (_ :: _) => true
      | _ => false) || !info.interaction_embeddings.isEmpty

/-! ## Shared lemmas -/

/-- Sums of squares are non-negative. -/
lemma sumsq_nonneg (v : Vec) : 0 ≤ ((v.map (fun x => x ^ 2)).sum : ℝ) := by
  refine List.sum_nonneg ?_
  intro x hx
  obtain ⟨y, -, rfl⟩ := List.mem_map.mp hx
  positivity

lemma l2norm_nonneg (v : Vec) : 0 ≤ l2norm v := Real.sqrt_nonneg _

/-- Normalizing a vector of positive norm yields a unit vector. -/
lemma l2norm_normalizePos (v : Vec) (h : 0 < l2norm v) : l2norm (normalizePos v) = 1 := by
  have hS : (0 : ℝ) ≤ (v.map (fun x => x ^ 2)).sum := sumsq_nonneg v
  unfold normalizePos
  rw [if_pos h]
  unfold l2norm at h ⊢
  rw [List.map_map]
  have hmaps : (v.map ((fun x => x ^ 2) ∘ fun x => x / Real.sqrt ((v.map (fun x => x ^ 2)).sum))) =
      v.map (fun x => x ^ 2 * ((Real.sqrt ((v.map (fun x => x ^ 2)).sum)) ^ 2)⁻¹) := by
    refine List.map_congr_left ?_
    intro x _
    simp [Function.comp, div_eq_mul_inv, mul_pow, inv_pow]
  rw [hmaps, List.sum_map_mul_right, Real.sqrt_mul hS, Real.sqrt_inv,
    Real.sqrt_sq (Real.sqrt_nonneg _)]
  exact mul_inv_cancel₀ (ne_of_gt h)

/-- A unit vector is unchanged by normalization. -/
lemma normalizePos_of_norm_one (v : Vec) (h : l2norm v = 1) : normalizePos v = v := by
  unfold normalizePos
  rw [h, if_pos one_pos]
  simp

/-- Normalization is idempotent. -/
lemma normalizePos_idem (v : Vec) : normalizePos (normalizePos v) = normalizePos v := by
  by_cases h : 0 < l2norm v
  · exact normalizePos_of_norm_one _ (l2norm_normalizePos v h)
  · have hv : normalizePos v = v := by unfold normalizePos; rw [if_neg h]
    rw [hv, hv]

/-- A kept search result's index is always within the metadata list
(`if idx < len(self.metadata)`). -/
lemma formatResults_forall_idx (metadata : List Item) (hits : List (Nat × ℚ)) :
    List.Forall (fun r => r.idx < metadata.length) (formatResults metadata hits) := by
  rw [List.forall_iff_forall_mem]
  intro r hr
  obtain ⟨h, -, heq⟩ := List.mem_filterMap.mp hr
  cases hget : metadata.get? h.1 with
  | none => rw [hget] at heq; simp at heq
  | some m =>
    rw [hget] at heq
    obtain ⟨hlt, -⟩ := List.get?_eq_some.mp hget
    cases heq
    exact hlt

/-- A result of `formatResults` carries the index and score of one hit. -/
lemma formatResults_mem (metadata : List Item) (hits : List (Nat × ℚ)) (r : SearchResult)
    (hr : r ∈ formatResults metadata hits) : ∃ h ∈ hits, r.idx = h.1 ∧ r.score = h.2 := by
  obtain ⟨h, hmem, heq⟩ := List.mem_filterMap.mp hr
  cases hget : metadata.get? h.1 with
  | none => rw [hget] at heq; simp at heq
  | some m =>
    rw [hget] at heq
    cases heq
    exact ⟨h, hmem, rfl, rfl⟩

/-- Pairwise transfer through `filterMap`. -/
lemma pairwise_filterMap_of_pairwise {α β : Type} (f : α → Option β)
    {R : α → α → Prop} {S : β → β → Prop}
    (H : ∀ a b x y, R a b → f a = some x → f b = some y → S x y) :
    ∀ (l : List α), List.Pairwise R l → List.Pairwise S (l.filterMap f)
  | [], _ => by simp
  | a :: l, h => by
    rw [List.pairwise_cons] at h
    rw [List.filterMap_cons]
    cases hfa : f a with
    | none => exact pairwise_filterMap_of_pairwise f H l h.2
    | some x =>
      rw [List.pairwise_cons]
      refine ⟨?_, pairwise_filterMap_of_pairwise f H l h.2⟩
      intro y hy
      obtain ⟨b, hb, hfb⟩ := List.mem_filterMap.mp hy
      exact H a b x y (h.1 b hb) hfa hfb

/-- The index lists the filter functions produce are strictly increasing
(original pool order). -/
lemma enum_filter_map_sorted {α : Type} (l : List α) (P : Nat × α → Bool) :
    List.Pairwise (· < ·) ((l.enum.filter P).map (fun p => p.1)) := by
  rw [List.pairwise_map]
  refine List.Pairwise.sublist (List.filter_sublist _) ?_
  have h : List.Pairwise (· < ·) (l.enum.map Prod.fst) := by
    rw [List.enum_map_fst l]
    exact List.pairwise_lt_range l.length
  rwa [List.pairwise_map] at h

/-! ## Claim theorems -/

/-- C9: for every diamond metadata with color "D" and every two settings whose
metadata agree except for the metal — one "platinum", one "yellow gold" — the
compatibility score with the platinum setting is at least the score with the
yellow-gold setting (all query-similarity scores arbitrary). -/
theorem C9_premium_color_prefers_platinum (dmeta smeta : Item) (ds s1 s2 : ℝ) :
    compute_diamond_setting_compatibility
        ⟨ds, { dmeta with color := some "D" }⟩ ⟨s1, { smeta with metal := some "platinum" }⟩ ≥
      compute_diamond_setting_compatibility
        ⟨ds, { dmeta with color := some "D" }⟩ ⟨s2, { smeta with metal := some "yellow gold" }⟩ := by
  have hcol : ({ dmeta with color := some "D" } : Item).color = some "D" := rfl
  have hm1 : ({ smeta with metal := some "platinum" } : Item).metal = some "platinum" := rfl
  have hm2 : ({ smeta with metal := some "yellow gold" } : Item).metal = some "yellow gold" := rfl
  have hmc1 : metalColorCredit { dmeta with color := some "D" }
      { smeta with metal := some "platinum" } = 3/10 := by
    unfold metalColorCredit
    rw [hcol, hm1]
    rw [show strUpper ((some "D").getD "") = "D" from by decide]
    rw [if_pos (Or.inl rfl), if_pos (Or.inl (by decide))]
  have hmc2 : metalColorCredit { dmeta with color := some "D" }
      { smeta with metal := some "yellow gold" } = 0 := by
    unfold metalColorCredit
    rw [hcol, hm2]
    rw [show strUpper ((some "D").getD "") = "D" from by decide]
    rw [if_pos (Or.inl rfl), if_neg (by decide)]
  have hst : styleCredit { dmeta with color := some "D" } { smeta with metal := some "platinum" } =
      styleCredit { dmeta with color := some "D" } { smeta with metal := some "yellow gold" } := rfl
  have hpr : priceCredit { dmeta with color := some "D" } { smeta with metal := some "platinum" } =
      priceCredit { dmeta with color := some "D" } { smeta with metal := some "yellow gold" } := rfl
  have hca : caratCredit { dmeta with color := some "D" } { smeta with metal := some "platinum" } =
      caratCredit { dmeta with color := some "D" } { smeta with metal := some "yellow gold" } := rfl
  unfold compute_diamond_setting_compatibility
  rw [hmc1, hmc2, hst, hpr, hca]
  refine min_le_min le_rfl ?_
  have h0 : (0 : ℚ) ≤ 3/10 := by norm_num
  linarith

/-- C7: for a positive half-life, the temporal decay weight equals
`2 ^ (-age_days / half_life)` for non-negative ages and lies in [0, 1]; it is
exactly 1 for non-positive ages (hence at age 0) and exactly 1/2 when the age
in days equals the half-life; and an interaction's combined weight is its base
weight times this decay weight. -/
theorem C7_temporal_decay (timestamp now half_life : ℝ) (hhl : 0 < half_life) :
    (0 ≤ now - timestamp →
      compute_temporal_decay_weight timestamp now half_life =
        (2 : ℝ) ^ (-((now - timestamp) / (24 * 3600)) / half_life) ∧
      0 ≤ compute_temporal_decay_weight timestamp now half_life ∧
      compute_temporal_decay_weight timestamp now half_life ≤ 1) ∧
    (now - timestamp ≤ 0 → compute_temporal_decay_weight timestamp now half_life = 1) ∧
    ((now - timestamp) / (24 * 3600) = half_life →
      compute_temporal_decay_weight timestamp now half_life = 1 / 2) ∧
    (∀ w, finalWeight w timestamp now half_life =
      w * compute_temporal_decay_weight timestamp now half_life) := by
  have h864 : (0 : ℝ) < 24 * 3600 := by norm_num
  refine ⟨?_, ?_, ?_, fun w => rfl⟩
  · intro hage
    by_cases hd : (now - timestamp) / (24 * 3600) ≤ 0
    · have hdge : 0 ≤ (now - timestamp) / (24 * 3600) := div_nonneg hage h864.le
      have hd0 : (now - timestamp) / (24 * 3600) = 0 := le_antisymm hd hdge
      simp only [compute_temporal_decay_weight]
      rw [if_pos hd]
      refine ⟨?_, by norm_num, by norm_num⟩
      rw [hd0]
      norm_num
    · have hdpos : 0 < (now - timestamp) / (24 * 3600) := lt_of_not_le hd
      have hle1 : (2 : ℝ) ^ (-((now - timestamp) / (24 * 3600)) / half_life) ≤ 1 := by
        refine Real.rpow_le_one_of_one_le_of_nonpos one_le_two ?_
        have hq : 0 ≤ (now - timestamp) / (24 * 3600) / half_life :=
          div_nonneg hdpos.le hhl.le
        rw [neg_div]
        linarith
      have hpos : (0 : ℝ) < (2 : ℝ) ^ (-((now - timestamp) / (24 * 3600)) / half_life) :=
        Real.rpow_pos_of_pos two_pos _
      simp only [compute_temporal_decay_weight]
      rw [if_neg hd, min_eq_right hle1, max_eq_right hpos.le]
      exact ⟨rfl, hpos.le, hle1⟩
  · intro hage
    have hd : (now - timestamp) / (24 * 3600) ≤ 0 :=
      div_nonpos_iff.mpr (Or.inr ⟨hage, h864.le⟩)
    simp only [compute_temporal_decay_weight]
    rw [if_pos hd]
  · intro heq
    have hdpos : 0 < (now - timestamp) / (24 * 3600) := heq ▸ hhl
    simp only [compute_temporal_decay_weight]
    rw [if_neg (not_le.mpr hdpos), heq, neg_div, div_self (ne_of_gt hhl),
      Real.rpow_neg_one]
    norm_num

/-- C7 witness: half-life 30 days, age exactly 30 days, decay weight exactly
one half. -/
theorem C7_temporal_decay_witness :
    (0 : ℝ) < 30 ∧ compute_temporal_decay_weight 0 (30 * 86400) 30 = 1 / 2 :=
  ⟨by norm_num,
    (C7_temporal_decay 0 (30 * 86400) 30 (by norm_num)).2.2.1 (by norm_num)⟩

/-- C2 counterexample: a diamond whose metadata lacks the `color` field is
rejected by a `color = ["D"]` filter — the missing field defaults to
`"Unknown"`, which is not in the requested list, so the claimed permissive
pass on missing fields fails for the categorical filters. -/
theorem C2_missing_color_is_rejected :
    filter_diamonds_by_attributes [({} : Item)] { color := some ["D"] } = [] := by
  decide

/-- C2 (amended): the numeric range checks (price, carat, band width — for
all three datasets) do pass permissively when the item lacks the field, and
a missing coded diamond field passes a categorical filter only when the
default `"Unknown"` is itself in the requested list. -/
theorem C2_numeric_checks_permissive_on_missing (f : Filters) (it : Item) :
    (it.price = none →
      passMinIfPresent f.price_min it.price = true ∧
      passMaxIfPresent f.price_max it.price = true ∧
      passMinIfPos f.price_min it.price = true ∧
      passMaxIfPos f.price_max it.price = true) ∧
    (it.carat_weight = none →
      passMinIfPos f.carat_min it.carat_weight = true ∧
      passMaxIfPos f.carat_max it.carat_weight = true) ∧
    (it.band_width_mm = none →
      passMinIfPresent f.band_width_min it.band_width_mm = true ∧
      passMaxIfPresent f.band_width_max it.band_width_mm = true) ∧
    (∀ (c : String) (cs : List String),
      codedFilter (some (c :: cs)) none = (c :: cs).contains "Unknown") := by
  refine ⟨?_, ?_, ?_, fun c cs => rfl⟩
  · intro h
    rw [h]
    cases hmin : f.price_min <;> cases hmax : f.price_max <;>
      simp [passMinIfPresent, passMaxIfPresent, passMinIfPos, passMaxIfPos]
  · intro h
    rw [h]
    cases hmin : f.carat_min <;> cases hmax : f.carat_max <;>
      simp [passMinIfPos, passMaxIfPos]
  · intro h
    rw [h]
    cases hmin : f.band_width_min <;> cases hmax : f.band_width_max <;>
      simp [passMinIfPresent, passMaxIfPresent]

/-- C2 witness: a concrete item without a price and a concrete price-range
filter; every price check passes. -/
theorem C2_numeric_checks_permissive_witness :
    ({} : Item).price = none ∧
    (passMinIfPresent (some 1000) ({} : Item).price = true ∧
      passMaxIfPresent (some 5000) ({} : Item).price = true ∧
      passMinIfPos (some 1000) ({} : Item).price = true ∧
      passMaxIfPos (some 5000) ({} : Item).price = true) :=
  ⟨rfl, (C2_numeric_checks_permissive_on_missing
    { price_min := some 1000, price_max := some 5000 } {}).1 rfl⟩

/-- C3 counterexample: an engine loaded with two embeddings but one metadata
record is constructed without error, and `search` then answers normally
(dropping the out-of-range index) instead of failing — a count mismatch is
both accepted at load time and silently tolerated by search. -/
theorem C3_mismatch_load_succeeds :
    (initEngine [[1, 0], [0, 1]] [({} : Item)] .diamonds "flat").isOk = true ∧
    (initEngine [[1, 0], [0, 1]] [({} : Item)] .diamonds "flat").toOption =
      some ⟨.diamonds, [[1, 0], [0, 1]], [({} : Item)]⟩ ∧
    ([[1, 0], [0, 1]] : List (List ℚ)).length ≠ ([({} : Item)] : List Item).length ∧
    (JewelryRetrievalEngine.search ⟨.diamonds, [[1, 0], [0, 1]], [({} : Item)]⟩ [] 2 none).length
      = 1 := by
  refine ⟨by decide, by decide, by decide, by decide⟩

/-- C3 (amended): `__init__` performs no count check — loading succeeds for
every pair of embedding and metadata lists (only an unknown index type
fails) — and `search` silently tolerates a mismatch, returning only results
whose index lies inside the metadata list. -/
theorem C3_no_load_time_count_check (emb : List (List ℚ)) (meta : List Item)
    (dt : DatasetType) (q : List ℚ) (top_k : Nat) (filters : Option Filters) :
    (initEngine emb meta dt "flat").isOk = true ∧
    List.Forall (fun r => r.idx < meta.length)
      (JewelryRetrievalEngine.search ⟨dt, emb, meta⟩ q top_k filters) := by
  constructor
  · rw [show initEngine emb meta dt "flat" = .ok ⟨dt, emb, meta⟩ from
      if_pos (Or.inl rfl)]
    rfl
  · unfold JewelryRetrievalEngine.search
    cases filters with
    | none => exact formatResults_forall_idx _ _
    | some f =>
      by_cases hc : (eligibleIndices dt meta f).isEmpty
      · simp only [hc, if_true]
        exact trivial
      · simp only [hc, if_false]
        exact formatResults_forall_idx _ _

/-- Processing a batch in which a map never fires produces no embeddings. -/
lemma filterMap_replicate_none {α β : Type} (f : α → Option β) (a : α) (h : f a = none) :
    ∀ n, (List.replicate n a).filterMap f = []
  | 0 => rfl
  | n + 1 => by
    rw [List.replicate_succ, List.filterMap_cons, h]
    exact filterMap_replicate_none f a h n

/-- C8 counterexample: one `update_from_interactions` call with 101
interactions that carry no `item_embedding` leaves 101 entries in the stored
interaction log — the 100-entry cap is keyed to the embeddings list, which
stays empty, so no eviction happens. -/
theorem C8_log_exceeds_cap :
    ((update_from_interactions emptyUserInfo 0 30
      (List.replicate 101 ({} : Interaction))).interactions).length = 101 := by
  have hnone : processInteraction 0 30 ({} : Interaction) = none := rfl
  have hts : processTimestamp 0 ({} : Interaction) = none := rfl
  unfold update_from_interactions emptyUserInfo
  rw [filterMap_replicate_none _ _ hnone, filterMap_replicate_none _ _ hts]
  norm_num

/-- C8 (amended): after every `update_from_interactions` call the
interaction-embedding list holds at most 100 entries — exactly the most
recent ones (a suffix of old-then-new) — while the raw interaction log is
truncated to its last 100 entries only when the *embedding* count exceeds
100; interactions without embeddings therefore do not trigger eviction. -/
theorem C8_cap_keyed_to_embeddings (info : UserInfo) (now half_life : ℝ)
    (batch : List Interaction) :
    (update_from_interactions info now half_life batch).interaction_embeddings.length ≤ 100 ∧
    (update_from_interactions info now half_life batch).interaction_embeddings =
      (info.interaction_embeddings ++ batch.filterMap (processInteraction now half_life)).drop
        ((info.interaction_embeddings ++
          batch.filterMap (processInteraction now half_life)).length - 100) ∧
    (update_from_interactions info now half_life batch).interactions =
      (if 100 < (info.interaction_embeddings ++
          batch.filterMap (processInteraction now half_life)).length then
        (info.interactions ++ batch).drop ((info.interactions ++ batch).length - 100)
      else info.interactions ++ batch) := by
  unfold update_from_interactions
  by_cases h : 100 < (info.interaction_embeddings ++
      batch.filterMap (processInteraction now half_life)).length
  · rw [if_pos h, if_pos h]
    refine ⟨?_, rfl, rfl⟩
    show ((info.interaction_embeddings ++
      batch.filterMap (processInteraction now half_life)).drop
        ((info.interaction_embeddings ++
          batch.filterMap (processInteraction now half_life)).length - 100)).length ≤ 100
    rw [List.length_drop]
    omega
  · rw [if_neg h, if_neg h]
    refine ⟨?_, ?_, rfl⟩
    · show (info.interaction_embeddings ++
        batch.filterMap (processInteraction now half_life)).length ≤ 100
      omega
    · show info.interaction_embeddings ++
        batch.filterMap (processInteraction now half_life) = _
      rw [Nat.sub_eq_zero_of_le (by omega), List.drop_zero]

/-- Members of the MMR loop output come from the seed or the remaining pool. -/
lemma mmrLoop_mem (dEmb sEmb : List Vec) (dw : ℝ) :
    ∀ (n : Nat) (selected remaining : List Combination) (x : Combination),
      x ∈ mmrLoop dEmb sEmb dw n selected remaining → x ∈ selected ∨ x ∈ remaining
  | 0, selected, remaining, x, hx => Or.inl hx
  | n + 1, selected, [], x, hx => Or.inl hx
  | n + 1, selected, r :: rs, x, hx => by
    have h := mmrLoop_mem dEmb sEmb dw n (selected ++
      [(r :: rs).getD (bestIdx (mmrScore dEmb sEmb dw selected) (r :: rs)) r])
      ((r :: rs).eraseIdx (bestIdx (mmrScore dEmb sEmb dw selected) (r :: rs))) x hx
    rcases h with h | h
    · rcases List.mem_append.mp h with h | h
      · exact Or.inl h
      · rcases List.mem_singleton.mp h with rfl
        right
        rw [List.getD_eq_getElem?_getD]
        cases hb : (r :: rs)[bestIdx (mmrScore dEmb sEmb dw selected) (r :: rs)]? with
        | none => exact List.mem_cons_self r rs
        | some y =>
          simp only [Option.getD_some]
          have := List.getElem?_eq_some.mp hb
          obtain ⟨hlt, hy⟩ := this
          rw [← hy]
          exact List.getElem_mem hlt
    · exact Or.inr ((List.eraseIdx_sublist (r :: rs)
        (bestIdx (mmrScore dEmb sEmb dw selected) (r :: rs))).mem h)

/-- Members of the diversity re-ranking output come from its input. -/
lemma apply_diversity_penalty_mem (dEmb sEmb : List Vec) (dw : ℝ)
    (combinations : List Combination) (top_k : Nat) (x : Combination)
    (hx : x ∈ apply_diversity_penalty dEmb sEmb dw combinations top_k) :
    x ∈ combinations := by
  unfold apply_diversity_penalty at hx
  by_cases h : combinations.length ≤ top_k
  · rwa [if_pos h] at hx
  · rw [if_neg h] at hx
    cases combinations with
    | nil => simp at hx
    | cons c rest =>
      rcases mmrLoop_mem dEmb sEmb dw _ _ _ _ hx with h' | h'
      · rcases List.mem_singleton.mp h' with rfl
        exact List.mem_cons_self _ _
      · exact List.mem_cons_of_mem _ h'

/-- Every combination produced by `recommend_combinations` is built by
`mkCombination` from a pair of the valid-pair stage. -/
lemma recommend_combinations_mem (dEmb sEmb : List Vec)
    (cd cs : List RResult) (uv : Option Vec) (ka : KeyAttrs) (exM exC : Bool)
    (collab seq : Option Nat × Option Nat → Option ℝ) (dw : ℝ) (k : Nat) (hi : Bool)
    (c : Combination)
    (hc : c ∈ recommend_combinations dEmb sEmb cd cs uv ka exM exC collab seq dw k hi) :
    ∃ p ∈ selectValidPairs (candidatePairs cd cs ka exM exC) k,
      c = mkCombination dEmb sEmb uv ka collab seq hi p := by
  unfold recommend_combinations at hc
  by_cases hemp : cd.isEmpty ∨ cs.isEmpty
  · rw [if_pos hemp] at hc
    simp at hc
  · rw [if_neg hemp] at hc
    have hc2 := List.mem_of_mem_take hc
    rw [(List.perm_insertionSort combRel _).mem_iff] at hc2
    have hc3 : c ∈ (selectValidPairs (candidatePairs cd cs ka exM exC) k).map
        (mkCombination dEmb sEmb uv ka collab seq hi) := by
      by_cases hdw : 0 < dw
      · rw [if_pos hdw] at hc2
        exact apply_diversity_penalty_mem _ _ _ _ _ _ hc2
      · rwa [if_neg hdw] at hc2
    obtain ⟨p, hp, hpe⟩ := List.mem_map.mp hc3
    exact ⟨p, hp, hpe.symm⟩

/-- C10: every combination returned by `recommend_combinations` reports
`'user_alignment': 0.0` in its score breakdown, whatever user vector is in
play — while the user-alignment term itself can be non-zero (second
conjunct: a concrete user vector aligned with a concrete pool gives 1). -/
theorem C10_breakdown_user_alignment_always_zero (dEmb sEmb : List Vec)
    (cd cs : List RResult) (uv : Option Vec) (ka : KeyAttrs) (exM exC : Bool)
    (collab seq : Option Nat × Option Nat → Option ℝ) (dw : ℝ) (k : Nat) (hi : Bool) :
    List.Forall (fun c => c.score_breakdown.user_alignment = 0)
      (recommend_combinations dEmb sEmb cd cs uv ka exM exC collab seq dw k hi) ∧
    userAlignment [[1, 0]] [[1, 0]] [1, 0] ⟨0, { id := some 0 }⟩ ⟨0, { id := some 0 }⟩ = 1 := by
  constructor
  · rw [List.forall_iff_forall_mem]
    intro c hc
    obtain ⟨p, -, rfl⟩ := recommend_combinations_mem dEmb sEmb cd cs uv ka exM exC
      collab seq dw k hi c hc
    simp only [mkCombination]
  · have havg : vavg [1, 0] [1, 0] = [1, 0] := by
      norm_num [vavg, vadd]
    have hnorm : l2norm ([1, 0] : Vec) = 1 := by
      norm_num [l2norm]
    unfold userAlignment
    simp only [List.get?]
    rw [havg, normalizePos_of_norm_one _ hnorm]
    norm_num [dotR]

/-- The scan index stays below the list end once a best value is recorded. -/
lemma bestIdxAux_lt (f : Combination → ℝ) :
    ∀ (l : List Combination) (i j : Nat) (b : ℝ), j < i →
      bestIdxAux f l i (j, some b) < i + l.length
  | [], i, j, b, h => by simpa using h
  | c :: cs, i, j, b, h => by
    show (if f c > b then bestIdxAux f cs (i + 1) (i, some (f c))
      else bestIdxAux f cs (i + 1) (j, some b)) < i + (c :: cs).length
    by_cases hf : f c > b
    · rw [if_pos hf]
      have h2 := bestIdxAux_lt f cs (i + 1) i (f c) (Nat.lt_succ_self i)
      simp only [List.length_cons]
      omega
    · rw [if_neg hf]
      have h2 := bestIdxAux_lt f cs (i + 1) j b (Nat.lt_succ_of_lt h)
      simp only [List.length_cons]
      omega

/-- On a non-empty list the chosen index is in range. -/
lemma bestIdx_lt (f : Combination → ℝ) (r : Combination) (rs : List Combination) :
    bestIdx f (r :: rs) < (r :: rs).length := by
  show bestIdxAux f (r :: rs) 0 (0, none) < (r :: rs).length
  have h : bestIdxAux f (r :: rs) 0 (0, none) = bestIdxAux f rs 1 (0, some (f r)) := rfl
  rw [h]
  have h2 := bestIdxAux_lt f rs 1 0 (f r) Nat.zero_lt_one
  simp only [List.length_cons]
  omega

/-- Each MMR round moves exactly one element, until the fuel or the pool runs
out. -/
lemma mmrLoop_length (dEmb sEmb : List Vec) (dw : ℝ) :
    ∀ (n : Nat) (selected remaining : List Combination),
      (mmrLoop dEmb sEmb dw n selected remaining).length =
        selected.length + min n remaining.length
  | 0, selected, remaining => by simp [mmrLoop]
  | n + 1, selected, [] => by simp [mmrLoop]
  | n + 1, selected, r :: rs => by
    have hb := bestIdx_lt (mmrScore dEmb sEmb dw selected) r rs
    show (mmrLoop dEmb sEmb dw n
      (selected ++ [(r :: rs).getD (bestIdx (mmrScore dEmb sEmb dw selected) (r :: rs)) r])
      ((r :: rs).eraseIdx (bestIdx (mmrScore dEmb sEmb dw selected) (r :: rs)))).length = _
    rw [mmrLoop_length dEmb sEmb dw n _ _]
    rw [List.length_append, List.length_eraseIdx, if_pos hb]
    have hmin : min (n + 1) (rs.length + 1) = min n rs.length + 1 :=
      Nat.succ_min_succ n rs.length
    simp only [List.length_cons, List.length_nil, Nat.add_sub_cancel]
    omega

/-- Output size of the diversity re-ranking. -/
lemma apply_diversity_penalty_length (dEmb sEmb : List Vec) (dw : ℝ)
    (combinations : List Combination) (top_k : Nat) :
    (apply_diversity_penalty dEmb sEmb dw combinations top_k).length =
      if combinations.length ≤ top_k then combinations.length
      else 1 + min (top_k - 1) (combinations.length - 1) := by
  unfold apply_diversity_penalty
  by_cases h : combinations.length ≤ top_k
  · rw [if_pos h, if_pos h]
  · rw [if_neg h, if_neg h]
    cases combinations with
    | nil => simp at h
    | cons c rest =>
      show (mmrLoop dEmb sEmb dw (top_k - 1) [c] rest).length = _
      rw [mmrLoop_length]
      simp only [List.length_cons, List.length_nil, Nat.add_sub_cancel]

/-- Empty candidate lists produce no pairs. -/
lemma candidatePairs_of_empty (cd cs : List RResult) (ka : KeyAttrs) (exM exC : Bool)
    (h : cd.isEmpty ∨ cs.isEmpty) : candidatePairs cd cs ka exM exC = [] := by
  rcases h with h | h
  · rw [List.isEmpty_iff] at h
    subst h
    simp [candidatePairs]
  · rw [List.isEmpty_iff] at h
    subst h
    simp [candidatePairs]

/-- C4: a combination returned by `recommend_combinations` can fail the quick
compatibility check only when fewer than `top_k` candidate pairs pass it (the
fallback branch scores every candidate pair), and the output size is always
`min top_k (number of candidate pairs)` — pruning never starves the output
when enough candidate pairs exist. -/
theorem C4_prefilter_fallback (dEmb sEmb : List Vec) (cd cs : List RResult)
    (uv : Option Vec) (ka : KeyAttrs) (exM exC : Bool)
    (collab seq : Option Nat × Option Nat → Option ℝ) (dw : ℝ) (k : Nat) (hi : Bool) :
    (((candidatePairs cd cs ka exM exC).filter
        (fun p => quick_compatibility_check p.1 p.2)).length < k ∨
      List.Forall (fun c => quick_compatibility_check c.diamond c.setting = true)
        (recommend_combinations dEmb sEmb cd cs uv ka exM exC collab seq dw k hi)) ∧
    (recommend_combinations dEmb sEmb cd cs uv ka exM exC collab seq dw k hi).length =
      min k (candidatePairs cd cs ka exM exC).length := by
  constructor
  · by_cases hflt : ((candidatePairs cd cs ka exM exC).filter
        (fun p => quick_compatibility_check p.1 p.2)).length < k
    · exact Or.inl hflt
    · refine Or.inr ?_
      rw [List.forall_iff_forall_mem]
      intro c hc
      obtain ⟨p, hp, rfl⟩ := recommend_combinations_mem dEmb sEmb cd cs uv ka exM exC
        collab seq dw k hi c hc
      rw [show selectValidPairs (candidatePairs cd cs ka exM exC) k =
        (candidatePairs cd cs ka exM exC).filter
          (fun p => quick_compatibility_check p.1 p.2) from if_neg hflt] at hp
      have hqc := (List.mem_filter.mp hp).2
      have hd : (mkCombination dEmb sEmb uv ka collab seq hi p).diamond = p.1 := rfl
      have hs : (mkCombination dEmb sEmb uv ka collab seq hi p).setting = p.2 := rfl
      rw [hd, hs]
      exact hqc
  · unfold recommend_combinations
    by_cases hemp : cd.isEmpty ∨ cs.isEmpty
    · rw [if_pos hemp, candidatePairs_of_empty cd cs ka exM exC hemp]
      simp
    · rw [if_neg hemp]
      have hF : ((candidatePairs cd cs ka exM exC).filter
          (fun p => quick_compatibility_check p.1 p.2)).length ≤
          (candidatePairs cd cs ka exM exC).length := List.length_filter_le _ _
      have hL : (selectValidPairs (candidatePairs cd cs ka exM exC) k).length =
          if ((candidatePairs cd cs ka exM exC).filter
            (fun p => quick_compatibility_check p.1 p.2)).length < k then
            (candidatePairs cd cs ka exM exC).length
          else ((candidatePairs cd cs ka exM exC).filter
            (fun p => quick_compatibility_check p.1 p.2)).length := by
        unfold selectValidPairs
        by_cases h : ((candidatePairs cd cs ka exM exC).filter
            (fun p => quick_compatibility_check p.1 p.2)).length < k
        · rw [if_pos h, if_pos h]
        · rw [if_neg h, if_neg h]
      rw [List.length_take, (List.perm_insertionSort combRel _).length_eq]
      by_cases hdw : 0 < dw
      · rw [if_pos hdw, apply_diversity_penalty_length, List.length_map, hL]
        simp only [Nat.min_def]
        split_ifs <;> omega
      · rw [if_neg hdw, List.length_map, hL]
        simp only [Nat.min_def]
        split_ifs <;> omega

/-- C6: `get_combined_vector` returns `None` exactly when the user has neither
a (truthy) stored preference embedding nor any stored interaction embedding;
with only a preference vector the result is that vector normalized (no
0.6/0.4 weighting); with only interactions it is the normalized decayed
interaction average itself; with both (and a unit-norm stored preference, as
every store path normalizes) it is the re-normalized weighted sum of the two
independently normalized operands. -/
theorem C6_hybrid_vector_cases :
    (∀ (user_data : String → Option UserInfo) (user_id : String) (bw iw hl now : ℝ),
      get_combined_vector user_data user_id bw iw hl now = none ↔
        hasVectorSource (user_data user_id) = false) ∧
    (∀ (x : ℝ) (xs : List ℝ) (txt : Option String) (ints : List Interaction)
        (ts : List ℝ) (uid : String) (bw iw hl now : ℝ),
      get_combined_vector (fun _ => some ⟨some (x :: xs), txt, ints, [], ts⟩)
          uid bw iw hl now = some (normalizePos (x :: xs))) ∧
    (∀ (e : Vec) (es : List Vec) (txt : Option String) (ints : List Interaction)
        (ts : List ℝ) (uid : String) (bw iw hl now : ℝ),
      get_combined_vector (fun _ => some ⟨none, txt, ints, e :: es, ts⟩)
          uid bw iw hl now = some (interactionVec (e :: es) ts now hl)) ∧
    (∀ (x : ℝ) (xs : List ℝ) (e : Vec) (es : List Vec) (txt : Option String)
        (ints : List Interaction) (ts : List ℝ) (uid : String) (bw iw hl now : ℝ),
      l2norm (x :: xs) = 1 →
      get_combined_vector (fun _ => some ⟨some (x :: xs), txt, ints, e :: es, ts⟩)
          uid bw iw hl now =
        some (normalizePos (vadd (smul bw (normalizePos (x :: xs)))
          (smul iw (interactionVec (e :: es) ts now hl))))) := by
  refine ⟨?_, ?_, ?_, ?_⟩
  · intro user_data user_id bw iw hl now
    unfold get_combined_vector hasVectorSource
    cases hdata : user_data user_id with
    | none => simp
    | some info =>
      obtain ⟨prefs, txt, ints, embs, ts⟩ := info
      cases prefs with
      | none => cases embs <;> simp
      | some l =>
        cases l with
        | nil => cases embs <;> simp
        | cons x xs => cases embs <;> simp
  · intro x xs txt ints ts uid bw iw hl now
    rfl
  · intro e es txt ints ts uid bw iw hl now
    have hid : normalizePos (interactionVec (e :: es) ts now hl) =
        interactionVec (e :: es) ts now hl := by
      unfold interactionVec
      exact normalizePos_idem _
    show some (normalizePos (interactionVec (e :: es) ts now hl)) =
      some (interactionVec (e :: es) ts now hl)
    rw [hid]
  · intro x xs e es txt ints ts uid bw iw hl now h
    rw [normalizePos_of_norm_one _ h]
    rfl

/-- C6 witness: unit preference vector `[1, 0]`, one stored interaction
embedding `[0, 1]`, defaults 0.6/0.4 — the combined vector is the normalized
weighted sum. -/
theorem C6_hybrid_vector_cases_witness :
    l2norm [(1 : ℝ), 0] = 1 ∧
    get_combined_vector (fun _ => some ⟨some [(1 : ℝ), 0], none, [], [[0, 1]], [0]⟩)
        "u" (3/5) (2/5) 30 0 =
      some (normalizePos (vadd (smul (3/5) (normalizePos [(1 : ℝ), 0]))
        (smul (2/5) (interactionVec [[0, 1]] [0] 0 30)))) :=
  ⟨by norm_num [l2norm],
    C6_hybrid_vector_cases.2.2.2 1 [0] [0, 1] [] none [] [0] "u" (3/5) (2/5) 30 0
      (by norm_num [l2norm])⟩

/-- A bare combination carrying only a relevance score (metadata without ids,
as in candidates whose embedding lookup fails). -/
noncomputable def mmrProbe (s : ℝ) : Combination :=
  ⟨⟨0, {}⟩, ⟨0, {}⟩, s, 0, ⟨0, 0, 0, 0, 0, 0, 0⟩⟩

/-- C5 (code bug witness): `_apply_diversity_penalty` on the unsorted list
`[score 1, score 9, score 5]` with `top_k = 2` seeds the selection with the
*first* element (score 1), not the highest-scoring candidate (score 9) — the
`remaining.pop(0)` seed contradicts the code's own "First item: highest
score" comment and the spec, because the list is only sorted *after* the
diversity pass. -/
theorem C5_mmr_seed_is_first_not_highest :
    apply_diversity_penalty [] [] (1/10) [mmrProbe 1, mmrProbe 9, mmrProbe 5] 2 =
      [mmrProbe 1, mmrProbe 9] ∧
    (mmrProbe 1).combination_score < (mmrProbe 9).combination_score := by
  constructor
  · have hcmp : ¬ (mmrScore [] [] (1/10) [mmrProbe 1] (mmrProbe 5) >
        mmrScore [] [] (1/10) [mmrProbe 1] (mmrProbe 9)) := by
      show ¬((5 : ℝ) - 1/10 * 0 > (9 : ℝ) - 1/10 * 0)
      norm_num
    have hbest : bestIdx (mmrScore [] [] (1/10) [mmrProbe 1])
        [mmrProbe 9, mmrProbe 5] = 0 := by
      show (if mmrScore [] [] (1/10) [mmrProbe 1] (mmrProbe 5) >
          mmrScore [] [] (1/10) [mmrProbe 1] (mmrProbe 9) then (1 : Nat) else 0) = 0
      rw [if_neg hcmp]
    unfold apply_diversity_penalty
    rw [if_neg (by simp)]
    show mmrLoop [] [] (1/10) 1 [mmrProbe 1] [mmrProbe 9, mmrProbe 5] = _
    rw [show mmrLoop [] [] (1/10) 1 [mmrProbe 1] [mmrProbe 9, mmrProbe 5] =
      mmrLoop [] [] (1/10) 0
        ([mmrProbe 1] ++ [[mmrProbe 9, mmrProbe 5].getD
          (bestIdx (mmrScore [] [] (1/10) [mmrProbe 1]) [mmrProbe 9, mmrProbe 5]) (mmrProbe 9)])
        ([mmrProbe 9, mmrProbe 5].eraseIdx
          (bestIdx (mmrScore [] [] (1/10) [mmrProbe 1]) [mmrProbe 9, mmrProbe 5])) from rfl]
    rw [hbest]
    rfl
  · show (1 : ℝ) < 9
    norm_num

/-- FAISS hits are sorted: descending score, ties by insertion position. -/
lemma faissFlatSearch_sorted (stored : List (List ℚ)) (q : List ℚ) (k : Nat) :
    List.Pairwise hitRel (faissFlatSearch stored q k) :=
  List.Pairwise.sublist (List.take_sublist k _) (List.sorted_insertionSort hitRel _)

/-- FAISS returns at most `k` hits. -/
lemma faissFlatSearch_length (stored : List (List ℚ)) (q : List ℚ) (k : Nat) :
    (faissFlatSearch stored q k).length ≤ k := by
  unfold faissFlatSearch
  rw [List.length_take]
  exact min_le_left _ _

/-- FAISS hit positions index the stored vectors. -/
lemma faissFlatSearch_pos_lt (stored : List (List ℚ)) (q : List ℚ) (k : Nat) :
    ∀ h ∈ faissFlatSearch stored q k, h.1 < stored.length := by
  intro h hm
  obtain ⟨i, x⟩ := h
  have h2 : (i, x) ∈ (stored.map (fun v => dotQ v q)).enum :=
    ((List.perm_insertionSort hitRel _).mem_iff).mp (List.mem_of_mem_take hm)
  have h3 := (List.mem_enum h2).1
  rwa [List.length_map] at h3

/-- Mapping sorted hit positions through a strictly increasing candidate-index
list preserves the sort relation (this is how ties end up in original pool
order after `candidate_indices[i]`). -/
lemma hits_map_pairwise (cand : List Nat) (hcand : List.Pairwise (· < ·) cand)
    (hits : List (Nat × ℚ)) (hp : List.Pairwise hitRel hits)
    (hb : ∀ h ∈ hits, h.1 < cand.length) :
    List.Pairwise hitRel (hits.map (fun h => (cand.getD h.1 0, h.2))) := by
  rw [List.pairwise_map]
  refine (List.Pairwise.and_mem.mp hp).imp ?_
  intro a b h
  obtain ⟨ha, hb', hr⟩ := h
  rcases hr with h | ⟨he, hle⟩
  · exact Or.inl h
  · refine Or.inr ⟨he, ?_⟩
    have ha1 := hb a ha
    have hb1 := hb b hb'
    show cand.getD a.1 0 ≤ cand.getD b.1 0
    rw [List.getD_eq_getElem?_getD, List.getD_eq_getElem?_getD,
      List.getElem?_eq_getElem ha1, List.getElem?_eq_getElem hb1, Option.getD_some,
      Option.getD_some]
    rcases eq_or_lt_of_le hle with heq | hlt
    · exact le_of_eq (by congr 1)
    · exact le_of_lt (List.pairwise_iff_getElem.mp hcand a.1 b.1 ha1 hb1 hlt)

/-- Result formatting preserves the hit order on (score, index). -/
lemma formatResults_pairwise (metadata : List Item) (hits : List (Nat × ℚ))
    (hp : List.Pairwise hitRel hits) :
    List.Pairwise (fun r s : SearchResult =>
      s.score < r.score ∨ (r.score = s.score ∧ r.idx ≤ s.idx))
      (formatResults metadata hits) := by
  refine pairwise_filterMap_of_pairwise _ ?_ hits hp
  intro a b x y hr hfa hfb
  cases hga : metadata.get? a.1 with
  | none => rw [hga] at hfa; simp at hfa
  | some ma =>
    rw [hga] at hfa
    cases hgb : metadata.get? b.1 with
    | none => rw [hgb] at hfb; simp at hfb
    | some mb =>
      rw [hgb] at hfb
      cases hfa
      cases hfb
      exact hr

/-- The index lists the three filter functions produce increase strictly. -/
lemma eligibleIndices_sorted (dt : DatasetType) (metadata : List Item) (f : Filters) :
    List.Pairwise (· < ·) (eligibleIndices dt metadata f) := by
  cases dt <;> exact enum_filter_map_sorted _ _

/-- C1: under the pool-alignment invariant, `search` returns at most
`min(top_k, eligible_count)` results, in non-increasing score order with ties
in original pool order, and with filters every returned index belongs to the
filtered eligible index set. -/
theorem C1_search_ordered_filtered_topk (eng : JewelryRetrievalEngine) (q : List ℚ)
    (top_k : Nat) (filters : Option Filters)
    (haligned : eng.embeddings.length = eng.metadata.length) :
    (eng.search q top_k filters).length ≤ min top_k (eligibleCount eng filters) ∧
    List.Pairwise (fun r s : SearchResult =>
      s.score < r.score ∨ (r.score = s.score ∧ r.idx ≤ s.idx))
      (eng.search q top_k filters) ∧
    (∀ f, filters = some f →
      List.Forall (fun r => r.idx ∈ eligibleIndices eng.dataset_type eng.metadata f)
        (eng.search q top_k filters)) := by
  cases filters with
  | none =>
    have hsearch : eng.search q top_k none = formatResults eng.metadata
        (faissFlatSearch eng.embeddings q (min top_k eng.embeddings.length)) := rfl
    rw [hsearch]
    refine ⟨?_, formatResults_pairwise _ _ (faissFlatSearch_sorted _ _ _),
      fun f hf => Option.noConfusion hf⟩
    calc (formatResults eng.metadata
        (faissFlatSearch eng.embeddings q (min top_k eng.embeddings.length))).length
        ≤ (faissFlatSearch eng.embeddings q (min top_k eng.embeddings.length)).length :=
          List.length_filterMap_le _ _
      _ ≤ min top_k eng.embeddings.length := faissFlatSearch_length _ _ _
      _ = min top_k (eligibleCount eng none) := by rw [haligned]; rfl
  | some f =>
    have hsearch : eng.search q top_k (some f) =
        if (eligibleIndices eng.dataset_type eng.metadata f).isEmpty then []
        else formatResults eng.metadata
          ((faissFlatSearch ((eligibleIndices eng.dataset_type eng.metadata f).map
            (fun i => (eng.embeddings.get? i).getD [])) q
            (min top_k (eligibleIndices eng.dataset_type eng.metadata f).length)).map
            (fun h => ((eligibleIndices eng.dataset_type eng.metadata f).getD h.1 0, h.2))) :=
      rfl
    rw [hsearch]
    by_cases hc : (eligibleIndices eng.dataset_type eng.metadata f).isEmpty
    · rw [if_pos hc]
      refine ⟨by simp, List.Pairwise.nil, fun f' hf' => trivial⟩
    · rw [if_neg hc]
      have hpos : ∀ h ∈ faissFlatSearch
          ((eligibleIndices eng.dataset_type eng.metadata f).map
            (fun i => (eng.embeddings.get? i).getD [])) q
          (min top_k (eligibleIndices eng.dataset_type eng.metadata f).length),
          h.1 < (eligibleIndices eng.dataset_type eng.metadata f).length := by
        intro h hm
        have := faissFlatSearch_pos_lt _ q _ h hm
        rwa [List.length_map] at this
      refine ⟨?_, ?_, ?_⟩
      · calc (formatResults eng.metadata _).length
            ≤ ((faissFlatSearch ((eligibleIndices eng.dataset_type eng.metadata f).map
                (fun i => (eng.embeddings.get? i).getD [])) q
                (min top_k (eligibleIndices eng.dataset_type eng.metadata f).length)).map
                (fun h => ((eligibleIndices eng.dataset_type eng.metadata f).getD h.1 0,
                  h.2))).length := List.length_filterMap_le _ _
          _ = (faissFlatSearch ((eligibleIndices eng.dataset_type eng.metadata f).map
                (fun i => (eng.embeddings.get? i).getD [])) q
                (min top_k (eligibleIndices eng.dataset_type eng.metadata f).length)).length :=
            List.length_map _ _
          _ ≤ min top_k (eligibleIndices eng.dataset_type eng.metadata f).length :=
            faissFlatSearch_length _ _ _
          _ = min top_k (eligibleCount eng (some f)) := rfl
      · exact formatResults_pairwise _ _ (hits_map_pairwise _
          (eligibleIndices_sorted _ _ _) _ (faissFlatSearch_sorted _ _ _) hpos)
      · intro f' hf'
        cases hf'
        rw [List.forall_iff_forall_mem]
        intro r hr
        obtain ⟨h', hm', hidx, -⟩ := formatResults_mem _ _ r hr
        obtain ⟨h, hh, rfl⟩ := List.mem_map.mp hm'
        have hlt := hpos h hh
        rw [hidx]
        show (eligibleIndices eng.dataset_type eng.metadata f).getD h.1 0 ∈
          eligibleIndices eng.dataset_type eng.metadata f
        rw [List.getD_eq_getElem?_getD, List.getElem?_eq_getElem hlt, Option.getD_some]
        exact List.getElem_mem hlt

/-- C1 witness: a two-item aligned diamond pool, a color filter matching one
item, `top_k = 1`. -/
theorem C1_search_witness :
    (JewelryRetrievalEngine.search
        ⟨.diamonds, [[1, 0], [0, 1]], [{ color := some "D" }, {}]⟩ [] 1
        (some { color := some ["D"] })).length ≤
      min 1 (eligibleCount ⟨.diamonds, [[1, 0], [0, 1]], [{ color := some "D" }, {}]⟩
        (some { color := some ["D"] })) ∧
    List.Pairwise (fun r s : SearchResult =>
      s.score < r.score ∨ (r.score = s.score ∧ r.idx ≤ s.idx))
      (JewelryRetrievalEngine.search
        ⟨.diamonds, [[1, 0], [0, 1]], [{ color := some "D" }, {}]⟩ [] 1
        (some { color := some ["D"] })) ∧
    (∀ f, (some { color := some ["D"] } : Option Filters) = some f →
      List.Forall (fun r => r.idx ∈ eligibleIndices .diamonds
          [{ color := some "D" }, {}] f)
        (JewelryRetrievalEngine.search
          ⟨.diamonds, [[1, 0], [0, 1]], [{ color := some "D" }, {}]⟩ [] 1
          (some { color := some ["D"] }))) :=
  C1_search_ordered_filtered_topk
    ⟨.diamonds, [[1, 0], [0, 1]], [{ color := some "D" }, {}]⟩ [] 1
    (some { color := some ["D"] }) rfl
